import Mathlib

/-!
Verification of the highwind mock-API server (`src/mock_api.js`) against its
natural-language specification.

Strings are modelled as `List Char` (`JStr`); JavaScript's
`String.prototype.replace(pattern, '')` with a literal pattern deletes the
first occurrence of the pattern, which `removeFirst` mirrors.  File-system
reads, the express router and the outbound HTTP client are external
collaborators; they enter the model as explicit parameters (an existence
predicate on file names, a bind-error assignment for ports, a JSON parser).
-/

namespace Highwind

/-- JavaScript strings, modelled as lists of characters. -/
abbrev JStr := List Char

/-- JS `s.replace(pattern, '')` for a literal pattern: deletes the first
occurrence of `pat` in `s` (the whole string is returned unchanged when
`pat` does not occur; an empty pattern matches at position 0 and deletes
nothing). -/
def removeFirst (pat : JStr) : JStr → JStr
  | [] => []
  | c :: rest =>
    if pat.isPrefixOf (c :: rest) then (c :: rest).drop pat.length
    else c :: removeFirst pat rest

/-- The character map performed by `.replace(/\//g, ':')`. -/
def slashToColon (c : Char) : Char := if c = '/' then ':' else c

/-- The slice of the `settings` object that `getFileName` and the request
pipeline consume (`queryStringIgnore`, `fixturesPath`, `prodRootURL`). -/
structure Settings where
  queryStringIgnore : List JStr
  fixturesPath : JStr
  prodRootURL : JStr

/-- `getFileName(path, ext, options)` from `src/mock_api.js`:
reduce the path through every `queryStringIgnore` pattern (one `replace`
per pattern, in configuration order), delete the first `/` (the non-global
`.replace(/\//, '')`), turn every remaining `/` into `:` (the global
`.replace(/\//g, ':')`), and build `` `${fixturesPath}/${name}.${ext}` ``. -/
def getFileName (path : JStr) (ext : JStr) (options : Settings) : JStr :=
  let fileNameInDirectory :=
    (removeFirst ['/']
      (options.queryStringIgnore.foldl
        (fun fileName regex => removeFirst regex fileName) path)).map slashToColon
  options.fixturesPath ++ '/' :: fileNameInDirectory ++ '.' :: ext

/-- `getURLPathWithQueryString(req)` from `src/mock_api.js`: join path and
query string with `?` when the query string is non-empty. -/
def getURLPathWithQueryString (path : JStr) (queryString : JStr) : JStr :=
  if 0 < queryString.length then path ++ '?' :: queryString else path

/-- First-occurrence search used by the spec-side deletion function:
index of the first position where `pat` begins in `s`. -/
def findOcc (pat : JStr) : JStr → Option Nat
  | [] => if pat = [] then some 0 else none
  | c :: rest =>
    if pat.isPrefixOf (c :: rest) then some 0
    else (findOcc pat rest).map (· + 1)

/-- Modelled from the spec's words for C2 (§4.1): delete the substring at
the first position where the ignore pattern matches; leave the string
unchanged when it matches nowhere. -/
def deleteFirst (pat : JStr) (s : JStr) : JStr :=
  match findOcc pat s with
  | some i => s.take i ++ s.drop (i + pat.length)
  | none => s

/-- Modelled from the spec's words for C2 (§4.1): remove one path
separator only when it is the leading character. -/
def stripLeadingSlash : JStr → JStr
  | [] => []
  | c :: rest => if c = '/' then rest else c :: rest

/-- Modelled from the spec's words for C2 (§4.1), the claimed resolver
algorithm: candidate = path (joined with `?` + query string when the query
string is non-empty); delete each ignore pattern once in configuration
order; strip a single LEADING path separator; flatten remaining separators
to `:`; append `.` + extension; prefix the fixtures root. -/
def specResolve (path queryString : JStr) (ignorePatterns : List JStr)
    (fixturesRoot ext : JStr) : JStr :=
  let candidate := if 0 < queryString.length then path ++ '?' :: queryString else path
  let stripped := ignorePatterns.foldl (fun s p => deleteFirst p s) candidate
  let flattened := (stripLeadingSlash stripped).map slashToColon
  fixturesRoot ++ '/' :: flattened ++ '.' :: ext

/-- The C2 algorithm amended at the separator-stripping step: the resolver
deletes the FIRST path separator occurrence, wherever it appears, rather
than only a leading one. -/
def amendedResolve (path queryString : JStr) (ignorePatterns : List JStr)
    (fixturesRoot ext : JStr) : JStr :=
  let candidate := if 0 < queryString.length then path ++ '?' :: queryString else path
  let stripped := ignorePatterns.foldl (fun s p => deleteFirst p s) candidate
  let flattened := (removeFirst ['/'] stripped).map slashToColon
  fixturesRoot ++ '/' :: flattened ++ '.' :: ext

/-- The `'json'` extension literal of `src/mock_api.js`. -/
def jsonExt : JStr := "json".toList

/-- The `'js'` extension literal of `src/mock_api.js`. -/
def jsExt : JStr := "js".toList

/-- The `'html'` extension literal of `src/mock_api.js`. -/
def htmlExt : JStr := "html".toList

/-- The decision taken by the catch-all `app.all('*')` handler in `start`
(`src/mock_api.js`): probe the three fixture formats in source order
(`.json`, then `.js`, then `.html`) and fall back to a production fetch.
Constructors name the branch taken; each carries the file name involved. -/
inductive Resolution where
  | serveJson (fileName : JStr)
  | serveJs (fileName : JStr)
  | serveHtml (fileName : JStr)
  | fetchProd (jsonFileName : JStr)
deriving DecidableEq

/-- The branch structure of the catch-all handler: `fs.existsSync` is the
external file system, passed as a Boolean existence predicate. -/
def resolveRequest (fsExists : JStr → Bool) (path : JStr) (settings : Settings) :
    Resolution :=
  let jsonFileName := getFileName path jsonExt settings
  let jsFileName := getFileName path jsExt settings
  let htmlFileName := getFileName path htmlExt settings
  if fsExists jsonFileName then .serveJson jsonFileName
  else if fsExists jsFileName then .serveJs jsFileName
  else if fsExists htmlFileName then .serveHtml htmlFileName
  else .fetchProd jsonFileName

/-- The immediate dispatch of `fetchResponse` (`src/mock_api.js`): a
non-GET method answers 500 with `res.status(500).end()` before any
network call; otherwise the upstream GET against `prodRootURL + path`
is issued. -/
inductive FetchStart where
  | noCall500
  | upstream (prodURL : JStr)
deriving DecidableEq

/-- The method guard at the top of `fetchResponse`. -/
def fetchResponseStart (method : JStr) (prodRootURL path : JStr) : FetchStart :=
  if method ≠ "GET".toList then .noCall500 else .upstream (prodRootURL ++ path)

/-- Request outcome of the composed pipeline: which local fixture is read
and served, an immediate empty 500 with no upstream call, or an upstream
fetch (carrying the URL hit and the `.json` file name the response would
be saved under). -/
inductive Outcome where
  | localJson (fileName : JStr)
  | localJs (fileName : JStr)
  | localHtml (fileName : JStr)
  | error500Empty
  | upstreamFetch (prodURL : JStr) (saveFileName : JStr)
deriving DecidableEq

/-- The catch-all handler composed with `fetchResponse`'s method guard. -/
def handleRequest (fsExists : JStr → Bool) (method path : JStr)
    (settings : Settings) : Outcome :=
  match resolveRequest fsExists path settings with
  | .serveJson f => .localJson f
  | .serveJs f => .localJs f
  | .serveHtml f => .localHtml f
  | .fetchProd f =>
    match fetchResponseStart method settings.prodRootURL path with
    | .noCall500 => .error500Empty
    | .upstream u => .upstreamFetch u f

/-- JS `s.match(pat)` for a literal pattern (no metacharacters): does `pat`
occur as a contiguous substring of `s`? -/
def hasSub (pat : JStr) : JStr → Bool
  | [] => pat.isEmpty
  | c :: rest => pat.isPrefixOf (c :: rest) || hasSub pat rest

/-- JS `s.match(re)` for a regex of the shape `/.X/` — a literal `X`
preceded by one arbitrary character (the unescaped dot in `/.json/`,
`/.js/`, `/.html/` of `serveResponse`): `X` must occur at index ≥ 1. -/
def dotMatch (pat : JStr) : JStr → Bool
  | [] => false
  | _ :: rest => hasSub pat rest

/-- The `/callback\=/` literal of `serveResponse`. -/
def callbackPattern : JStr := "callback=".toList

/-- A response body as produced by the express calls in `serveResponse`:
`res.send(data)` passes the bytes through (`raw`); `res.json(JSON.parse
(data))` serves a parsed value (`parsed`); `res.json(data)` serves an
already-structured value unchanged (`structuredEcho`); `res.json({})`
serves the empty JSON object (`emptyObject`). -/
inductive Body (α : Type) where
  | raw (data : JStr)
  | parsed (v : α)
  | structuredEcho (data : JStr)
  | emptyObject
deriving DecidableEq

/-- Status, `Content-Type`, and body sent for a request.  Express defaults
the status to 200 on `res.send`/`res.json`; `serveResponse` never calls
`res.status`, so every response it sends carries 200. -/
structure Response (α : Type) where
  status : Nat
  contentType : JStr
  body : Body α
deriving DecidableEq

/-- `serveResponse(res, data, fileName, options)` from `src/mock_api.js`,
parameterized by the JSON parser (`tryParse data = none` models a
`JSON.parse` throw).  Branch order follows the source: the JSONP check on
the file name, then `/.json/`, `/.js/`, `/.html/`; the final branch logs
an unrecognized-extension error and sends no response at all (`none`).
Logging and the `quiet` option are side effects outside the model. -/
def serveResponse {α : Type} (tryParse : JStr → Option α) (fileName data : JStr)
    (newResponse : Bool) : Option (Response α) :=
  if hasSub callbackPattern fileName then
    some ⟨200, "application/javascript".toList, .raw data⟩
  else if dotMatch jsonExt fileName then
    if newResponse then
      some ⟨200, "application/json".toList, .structuredEcho data⟩
    else
      match tryParse data with
      | some v => some ⟨200, "application/json".toList, .parsed v⟩
      | none => some ⟨200, "application/json".toList, .emptyObject⟩
  else if dotMatch jsExt fileName then
    some ⟨200, "application/json".toList, .structuredEcho data⟩
  else if dotMatch htmlExt fileName then
    some ⟨200, "text/html".toList, .raw data⟩
  else
    none

/-- A JavaScript argument at a `getFileName` call site: a plain string or
the settings object (the source is dynamically typed, and the override
path passes the arguments in a different order than the signature). -/
inductive JsArg where
  | str (s : JStr)
  | settingsObj (o : Settings)

/-- `getFileName` as invoked dynamically: destructuring
`{ queryStringIgnore, fixturesPath }` from a string binds both to
`undefined`, and the subsequent `undefined.reduce(...)` throws a
TypeError; an object in the `ext` slot would be stringified by the
template literal. -/
def getFileNameJS (path : JStr) (ext : JsArg) (options : JsArg) : Except JStr JStr :=
  match options with
  | .settingsObj o =>
    match ext with
    | .str e => .ok (getFileName path e o)
    | .settingsObj _ => .ok (getFileName path ("[object Object]".toList) o)
  | .str _ =>
    .error ("TypeError: Cannot read properties of undefined (reading reduce)".toList)

/-- What the fixture-resolution step of one override entry does during
registration (`delegateRouteOverrides`, `src/mock_api.js`).  There is no
constructor delivering an error to the start callback: the code has no
path from this step into `callback(err)`. -/
inductive RegOutcome where
  | throwsSync (msg : JStr)
  | deferredRead (fileName : JStr)
  | inlineFixture
deriving DecidableEq

/-- The `if (!response)` arm of `delegateRouteOverrides`: with no fixed
response body the source runs `getFileName(route, options, 'json')` —
arguments in that order, against the `getFileName(path, ext, options)`
signature — and would then schedule `fs.readFile`, whose callback throws
(asynchronously, after `start` has returned) when the fixture is
missing. -/
def registerOverrideEntry (route : JStr) (response : Option JStr)
    (options : Settings) : RegOutcome :=
  match response with
  | some _ => .inlineFixture
  | none =>
    match getFileNameJS route (.settingsObj options) (.str jsonExt) with
    | .error msg => .throwsSync msg
    | .ok fileName => .deferredRead fileName

/-- One entry of the global `SERVERS` registry:
`{ port, server, active }` (the listener handle itself is external). -/
structure ServerRec where
  port : Nat
  active : Bool
deriving DecidableEq

/-- How one port's task inside `startListening` treats its
`async.parallel` callback. -/
inductive TaskResult where
  | skippedDuplicate
  | calledBack (err : Option JStr)
deriving DecidableEq

/-- One task of `startListening` (`src/mock_api.js`): when the port is
already active in the registry it warns and returns early — without ever
invoking its callback; otherwise it calls `app.listen` and synchronously
pushes `{port, server, active: true}` onto the registry, before the
listen callback runs and regardless of the bind outcome `bindErr port`
(the external listener reports `bindErr port` to the callback later). -/
def runListenTask (bindErr : Nat → Option JStr) (registry : List ServerRec)
    (port : Nat) : List ServerRec × TaskResult :=
  if ((registry.filter (fun r => r.active)).map (fun r => r.port)).contains port then
    (registry, .skippedDuplicate)
  else
    (registry ++ [⟨port, true⟩], .calledBack (bindErr port))

/-- `startListening(app, ports, callback)`: one task per configured port;
tasks run in order and share the mutable registry; each task's callback
behavior is collected. -/
def startListening (bindErr : Nat → Option JStr) (ports : List Nat)
    (registry : List ServerRec) : List ServerRec × List TaskResult :=
  ports.foldl
    (fun acc port =>
      let step := runListenTask bindErr acc.1 port
      (step.1, acc.2 ++ [step.2]))
    (registry, [])

/-- `async.parallel` semantics for the final callback: it fires only once
every task has invoked its own callback (a task that never calls back
stalls the join forever). -/
def parallelCompletes (results : List TaskResult) : Bool :=
  results.all fun r =>
    match r with
    | .calledBack _ => true
    | .skippedDuplicate => false

end Highwind

namespace Highwind

/-- `deleteFirst`, written from the spec's words via a position search,
agrees with the code's `removeFirst`. -/
theorem deleteFirst_eq_removeFirst (pat : JStr) (s : JStr) :
    deleteFirst pat s = removeFirst pat s := by
  induction s with
  | nil =>
    by_cases h : pat = [] <;> simp [deleteFirst, findOcc, removeFirst, h]
  | cons c rest ih =>
    by_cases h : pat.isPrefixOf (c :: rest)
    · simp [deleteFirst, findOcc, removeFirst, h]
    · have hrm : removeFirst pat (c :: rest) = c :: removeFirst pat rest := by
        rw [removeFirst, if_neg h]
      have hfo : findOcc pat (c :: rest) = (findOcc pat rest).map (· + 1) := by
        rw [findOcc, if_neg h]
      rw [hrm, ← ih]
      unfold deleteFirst
      rw [hfo]
      cases hf : findOcc pat rest with
      | none => simp
      | some i =>
        have hd : i + 1 + pat.length = (i + pat.length) + 1 := by omega
        simp [hd, List.take_succ_cons, List.drop_succ_cons]

/-- Folding the spec-side deletion over the ignore patterns agrees with
folding the code's `removeFirst`. -/
theorem foldl_deleteFirst_eq (pats : List JStr) (s : JStr) :
    pats.foldl (fun acc p => deleteFirst p acc) s =
      pats.foldl (fun acc p => removeFirst p acc) s := by
  induction pats generalizing s with
  | nil => rfl
  | cons p ps ih => simp only [List.foldl_cons, deleteFirst_eq_removeFirst, ih]

/-- C2 counterexample: with ignore pattern `/a` on path `/ab/c`, the
ignore-stripped candidate is `b/c`, which has no leading separator; the
claimed algorithm keeps both characters around the interior `/` and yields
`f/b:c.json`, while the code deletes the first `/` wherever it appears
and yields `f/bc.json`. -/
theorem resolver_leading_separator_counterexample :
    getFileName (getURLPathWithQueryString ("/ab/c".toList) []) jsonExt
        ⟨["/a".toList], "f".toList, []⟩ ≠
      specResolve ("/ab/c".toList) [] ["/a".toList] ("f".toList) jsonExt := by
  decide

/-- C2 (amended): the resolver returns exactly the claimed string, with the
separator step amended to "delete the FIRST path-separator occurrence,
wherever it appears" instead of "strip a single leading path separator";
in particular it is total and resolves empty input to `fixturesRoot/.ext`. -/
theorem resolver_equals_amended_algorithm (path qs : JStr) (pats : List JStr)
    (root prod ext : JStr) :
    getFileName (getURLPathWithQueryString path qs) ext ⟨pats, root, prod⟩ =
        amendedResolve path qs pats root ext ∧
      getFileName (getURLPathWithQueryString [] []) ext ⟨[], root, prod⟩ =
        root ++ '/' :: '.' :: ext := by
  constructor
  · unfold getFileName getURLPathWithQueryString amendedResolve
    simp only [foldl_deleteFirst_eq]
  · simp [getFileName, getURLPathWithQueryString, removeFirst]

/-- A pattern whose head character occurs nowhere in `s` matches nowhere,
so `removeFirst` leaves `s` unchanged. -/
theorem removeFirst_of_head_not_mem (c : Char) (p : JStr) (s : JStr) (h : c ∉ s) :
    removeFirst (c :: p) s = s := by
  induction s with
  | nil => rfl
  | cons a t ih =>
    have hca : c ≠ a := fun hc => h (hc ▸ List.mem_cons_self a t)
    have hct : c ∉ t := fun hc => h (List.mem_cons_of_mem a hc)
    have hpre : ¬ (c :: p).isPrefixOf (a :: t) = true := by
      rw [List.isPrefixOf_iff_prefix, List.cons_prefix_cons]
      exact fun hx => hca hx.1
    rw [removeFirst, if_neg hpre, ih hct]

/-- When `c` occurs nowhere in `path`, `removeFirst` on `path ++ c :: qs`
deletes exactly the `c :: qs` suffix. -/
theorem removeFirst_deletes_suffix (c : Char) (qs path : JStr) (h : c ∉ path) :
    removeFirst (c :: qs) (path ++ c :: qs) = path := by
  induction path with
  | nil =>
    have hpre : (c :: qs).isPrefixOf (c :: qs) = true := by
      rw [List.isPrefixOf_iff_prefix]
    simp [removeFirst, hpre]
  | cons a t ih =>
    have hca : c ≠ a := fun hc => h (hc ▸ List.mem_cons_self a t)
    have hct : c ∉ t := fun hc => h (List.mem_cons_of_mem a hc)
    have hpre : ¬ (c :: qs).isPrefixOf (a :: (t ++ c :: qs)) = true := by
      rw [List.isPrefixOf_iff_prefix, List.cons_prefix_cons]
      exact fun hx => hca hx.1
    rw [List.cons_append, removeFirst, if_neg hpre, ih hct]

/-- C3: the resolver is a pure function — resolving the same inputs twice
yields the same identifier — and, for an ignore pattern that matches the
full query-string suffix `?ignoredQuery`, `path` and `path?ignoredQuery`
resolve to the identical identifier (for request paths, which contain
no `?`). -/
theorem resolver_deterministic_and_ignores_query (path qs root prod ext : JStr)
    (h : '?' ∉ path) :
    (getFileName (getURLPathWithQueryString path qs) ext ⟨['?' :: qs], root, prod⟩ =
        getFileName (getURLPathWithQueryString path qs) ext ⟨['?' :: qs], root, prod⟩) ∧
      getFileName (getURLPathWithQueryString path qs) ext ⟨['?' :: qs], root, prod⟩ =
        getFileName path ext ⟨['?' :: qs], root, prod⟩ := by
  refine ⟨rfl, ?_⟩
  unfold getFileName getURLPathWithQueryString
  simp only [List.foldl_cons, List.foldl_nil]
  by_cases hq : 0 < qs.length
  · rw [if_pos hq, removeFirst_deletes_suffix '?' qs path h,
      removeFirst_of_head_not_mem '?' qs path h]
  · rw [if_neg hq]

/-- C3 witness: `/users` with ignored query `ignore=1`. -/
theorem resolver_deterministic_and_ignores_query_witness :
    ('?' ∉ "/users".toList) ∧
      ((getFileName (getURLPathWithQueryString ("/users".toList) ("ignore=1".toList))
          jsonExt ⟨['?' :: "ignore=1".toList], "fix".toList, []⟩ =
        getFileName (getURLPathWithQueryString ("/users".toList) ("ignore=1".toList))
          jsonExt ⟨['?' :: "ignore=1".toList], "fix".toList, []⟩) ∧
      getFileName (getURLPathWithQueryString ("/users".toList) ("ignore=1".toList))
          jsonExt ⟨['?' :: "ignore=1".toList], "fix".toList, []⟩ =
        getFileName ("/users".toList) jsonExt
          ⟨['?' :: "ignore=1".toList], "fix".toList, []⟩) :=
  ⟨by decide,
    resolver_deterministic_and_ignores_query ("/users".toList) ("ignore=1".toList)
      ("fix".toList) [] jsonExt (by decide)⟩

/-- C1: the catch-all pipeline serves the first format found in the fixed
precedence order json, js, html — when the `.json` file exists it is
served and the other formats are ignored; `.js` is served only when
`.json` is absent; `.html` only when both are absent. -/
theorem format_precedence (fsExists : JStr → Bool) (path : JStr) (s : Settings) :
    (fsExists (getFileName path jsonExt s) = true →
        resolveRequest fsExists path s =
          .serveJson (getFileName path jsonExt s)) ∧
      (fsExists (getFileName path jsonExt s) = false →
        fsExists (getFileName path jsExt s) = true →
        resolveRequest fsExists path s =
          .serveJs (getFileName path jsExt s)) ∧
      (fsExists (getFileName path jsonExt s) = false →
        fsExists (getFileName path jsExt s) = false →
        fsExists (getFileName path htmlExt s) = true →
        resolveRequest fsExists path s =
          .serveHtml (getFileName path htmlExt s)) := by
  refine ⟨fun h1 => ?_, fun h1 h2 => ?_, fun h1 h2 h3 => ?_⟩
  · simp only [resolveRequest]
    rw [if_pos h1]
  · simp only [resolveRequest]
    rw [if_neg (by simp [h1]), if_pos h2]
  · simp only [resolveRequest]
    rw [if_neg (by simp [h1]), if_neg (by simp [h2]), if_pos h3]

/-- C1 witness: both `fix/a.json` and `fix/a.js` exist on disk; the
request for `/a` resolves to serving the `.json` fixture. -/
theorem format_precedence_witness :
    ((fun f => f == "fix/a.json".toList || f == "fix/a.js".toList)
        (getFileName ("/a".toList) jsonExt ⟨[], "fix".toList, []⟩) = true) ∧
      resolveRequest (fun f => f == "fix/a.json".toList || f == "fix/a.js".toList)
          ("/a".toList) ⟨[], "fix".toList, []⟩ =
        .serveJson (getFileName ("/a".toList) jsonExt ⟨[], "fix".toList, []⟩) :=
  ⟨by decide,
    (format_precedence (fun f => f == "fix/a.json".toList || f == "fix/a.js".toList)
      ("/a".toList) ⟨[], "fix".toList, []⟩).1 (by decide)⟩

/-- C6: a request whose method is not GET, matching no override (it reaches
the catch-all) and for which none of the three fixture formats exists, is
answered immediately with an empty 500 and no upstream call. -/
theorem non_get_without_fixture_500 (fsExists : JStr → Bool) (method path : JStr)
    (s : Settings) (hm : method ≠ "GET".toList)
    (h1 : fsExists (getFileName path jsonExt s) = false)
    (h2 : fsExists (getFileName path jsExt s) = false)
    (h3 : fsExists (getFileName path htmlExt s) = false) :
    handleRequest fsExists method path s = .error500Empty := by
  simp only [handleRequest, resolveRequest, fetchResponseStart]
  rw [if_neg (by simp [h1]), if_neg (by simp [h2]), if_neg (by simp [h3]), if_pos hm]

/-- C6 witness: `PUT /unknown` with an empty fixture directory. -/
theorem non_get_without_fixture_500_witness :
    ("PUT".toList ≠ "GET".toList) ∧
      handleRequest (fun _ => false) ("PUT".toList) ("/unknown".toList)
        ⟨[], "fix".toList, "http://prod".toList⟩ = .error500Empty :=
  ⟨by decide,
    non_get_without_fixture_500 (fun _ => false) ("PUT".toList) ("/unknown".toList)
      ⟨[], "fix".toList, "http://prod".toList⟩ (by decide) rfl rfl rfl⟩

/-- `hasSub` decides the contiguous-substring relation. -/
theorem hasSub_iff (pat s : JStr) : hasSub pat s = true ↔ pat <:+: s := by
  induction s with
  | nil => simp [hasSub, List.isEmpty_iff, List.infix_nil]
  | cons c rest ih =>
    simp [hasSub, Bool.or_eq_true, List.isPrefixOf_iff_prefix, ih,
      List.infix_cons_iff]

/-- Any file name the resolver builds with extension `ext` matches the
`/.ext/`-shaped regex: `ext` occurs at index ≥ 1 (after the `/` that
follows the fixtures root, or inside the root itself). -/
theorem dotMatch_getFileName (path ext : JStr) (s : Settings) :
    dotMatch ext (getFileName path ext s) = true := by
  have key : ∀ root mid : JStr, dotMatch ext (root ++ '/' :: mid ++ '.' :: ext) = true := by
    intro root mid
    cases root with
    | nil =>
      show hasSub ext (mid ++ '.' :: ext) = true
      rw [hasSub_iff]
      exact ⟨mid ++ ['.'], [], by simp⟩
    | cons r rt =>
      show hasSub ext (rt ++ '/' :: mid ++ '.' :: ext) = true
      rw [hasSub_iff]
      exact ⟨rt ++ '/' :: mid ++ ['.'], [], by simp⟩
  exact key s.fixturesPath _

/-- C4: a cached `.json` fixture (read from disk, so `newResponse` is
false) whose text does not parse is answered with status 200 and the
empty JSON object — the request does not fail; the parse failure is only
logged. -/
theorem corrupt_json_served_as_empty_object {α : Type} (tryParse : JStr → Option α)
    (path data : JStr) (s : Settings)
    (hcb : hasSub callbackPattern (getFileName path jsonExt s) = false)
    (hp : tryParse data = none) :
    serveResponse tryParse (getFileName path jsonExt s) data false =
      some ⟨200, "application/json".toList, .emptyObject⟩ := by
  unfold serveResponse
  rw [if_neg (by simp [hcb]), if_pos (dotMatch_getFileName path jsonExt s),
    if_neg (by simp), hp]

/-- C4 witness: the fixture text `oops` for `/users` fails to parse and is
served as the empty object with status 200. -/
theorem corrupt_json_served_as_empty_object_witness :
    (hasSub callbackPattern
        (getFileName ("/users".toList) jsonExt ⟨[], "fix".toList, []⟩) = false) ∧
      serveResponse (fun _ => (none : Option Unit))
          (getFileName ("/users".toList) jsonExt ⟨[], "fix".toList, []⟩)
          ("oops".toList) false =
        some ⟨200, "application/json".toList, .emptyObject⟩ :=
  ⟨by decide,
    corrupt_json_served_as_empty_object (fun _ => (none : Option Unit))
      ("/users".toList) ("oops".toList) ⟨[], "fix".toList, []⟩ (by decide) rfl⟩

/-- `removeFirst [c]` walks past any block that does not contain `c`. -/
theorem removeFirst_append_of_not_mem (c : Char) (l r : JStr) (h : c ∉ l) :
    removeFirst [c] (l ++ r) = l ++ removeFirst [c] r := by
  induction l with
  | nil => rfl
  | cons a t ih =>
    have hca : c ≠ a := fun hc => h (hc ▸ List.mem_cons_self a t)
    have hct : c ∉ t := fun hc => h (List.mem_cons_of_mem a hc)
    have hpre : ¬ [c].isPrefixOf (a :: (t ++ r)) = true := by
      rw [List.isPrefixOf_iff_prefix, List.cons_prefix_cons]
      exact fun hx => hca hx.1
    rw [List.cons_append, removeFirst, if_neg hpre, ih hct, List.cons_append]

/-- `removeFirst [c]` deletes the head when the head is `c`. -/
theorem removeFirst_cons_self (c : Char) (t : JStr) :
    removeFirst [c] (c :: t) = t := by
  have hpre : [c].isPrefixOf (c :: t) = true := by
    rw [List.isPrefixOf_iff_prefix, List.cons_prefix_cons]
    exact ⟨rfl, List.nil_prefix⟩
  rw [removeFirst, if_pos hpre]
  rfl

/-- Splitting a list at the first occurrence of a member. -/
theorem exists_first_occ (c : Char) (l : JStr) (h : c ∈ l) :
    ∃ l₁ l₂, l = l₁ ++ c :: l₂ ∧ c ∉ l₁ := by
  induction l with
  | nil => cases h
  | cons a t ih =>
    by_cases hac : c = a
    · exact ⟨[], t, by simp [hac], List.not_mem_nil c⟩
    · have hct : c ∈ t := by
        rcases List.mem_cons.mp h with h' | h'
        · exact absurd h' hac
        · exact h'
      obtain ⟨l₁, l₂, heq, hn⟩ := ih hct
      refine ⟨a :: l₁, l₂, by rw [heq, List.cons_append], ?_⟩
      intro hm
      rcases List.mem_cons.mp hm with h' | h'
      · exact hac h'
      · exact hn h'

/-- Deleting the first `c` of a string preserves any substring that does
not contain `c`. -/
theorem sub_preserved_removeFirst (c : Char) (pat s : JStr) (hc : c ∉ pat)
    (h : pat <:+: s) : pat <:+: removeFirst [c] s := by
  obtain ⟨t, u, rfl⟩ := h
  by_cases hct : c ∈ t
  · obtain ⟨t₁, t₂, heq, hn⟩ := exists_first_occ c t hct
    rw [heq]
    have harr : (t₁ ++ c :: t₂) ++ pat ++ u = t₁ ++ (c :: (t₂ ++ pat ++ u)) := by
      simp
    rw [harr, removeFirst_append_of_not_mem c t₁ _ hn, removeFirst_cons_self]
    exact ⟨t₁ ++ t₂, u, by simp⟩
  · have hcl : c ∉ t ++ pat := by
      intro hm
      rcases List.mem_append.mp hm with h' | h'
      · exact hct h'
      · exact hc h'
    rw [removeFirst_append_of_not_mem c (t ++ pat) u hcl]
    exact ⟨t, removeFirst [c] u, by simp⟩

/-- Character-wise relabelling preserves a substring the map fixes. -/
theorem sub_preserved_map (f : Char → Char) (pat s : JStr)
    (hfix : pat.map f = pat) (h : pat <:+: s) : pat <:+: s.map f := by
  obtain ⟨t, u, rfl⟩ := h
  exact ⟨t.map f, u.map f, by simp [hfix]⟩

/-- A substring of the flattened name is a substring of the full resolver
output `root ++ "/" ++ name ++ "." ++ ext`. -/
theorem sub_affix (pat m root ext : JStr) (h : pat <:+: m) :
    pat <:+: root ++ '/' :: m ++ '.' :: ext := by
  obtain ⟨t, u, rfl⟩ := h
  exact ⟨root ++ '/' :: t, u ++ '.' :: ext, by simp⟩

/-- C5: whenever `callback=` survives the ignore-pattern filtering into the
resolved identifier (in particular for any query string carrying a
`callback=` key that no pattern deletes), `serveResponse` answers with
`Content-Type application/javascript` and the content passed through
as-is — whatever the fixture's extension, content, or freshness. -/
theorem jsonp_rendering {α : Type} (tryParse : JStr → Option α)
    (path qs ext data : JStr) (s : Settings) (newResponse : Bool)
    (hsurv : hasSub callbackPattern
      (s.queryStringIgnore.foldl (fun fileName regex => removeFirst regex fileName)
        (getURLPathWithQueryString path qs)) = true) :
    serveResponse tryParse (getFileName (getURLPathWithQueryString path qs) ext s)
        data newResponse =
      some ⟨200, "application/javascript".toList, .raw data⟩ := by
  have h1 : callbackPattern <:+:
      s.queryStringIgnore.foldl (fun fileName regex => removeFirst regex fileName)
        (getURLPathWithQueryString path qs) := (hasSub_iff _ _).mp hsurv
  have h2 := sub_preserved_removeFirst '/' callbackPattern _ (by decide) h1
  have h3 := sub_preserved_map slashToColon callbackPattern _ (by decide) h2
  have h4 := sub_affix callbackPattern _ s.fixturesPath ext h3
  have hfin : hasSub callbackPattern
      (getFileName (getURLPathWithQueryString path qs) ext s) = true := by
    unfold getFileName
    rw [hasSub_iff]
    exact h4
  unfold serveResponse
  rw [if_pos hfin]

/-- C5 witness: `GET /a?callback=cb` with no ignore patterns is served as
JSONP even though the fixture identifier carries the `.json` extension. -/
theorem jsonp_rendering_witness :
    (hasSub callbackPattern
        ((Settings.mk [] ("fix".toList) []).queryStringIgnore.foldl
          (fun fileName regex => removeFirst regex fileName)
          (getURLPathWithQueryString ("/a".toList) ("callback=cb".toList))) = true) ∧
      serveResponse (fun _ => (none : Option Unit))
          (getFileName (getURLPathWithQueryString ("/a".toList) ("callback=cb".toList))
            jsonExt ⟨[], "fix".toList, []⟩)
          ("data".toList) false =
        some ⟨200, "application/javascript".toList, .raw ("data".toList)⟩ :=
  ⟨by decide,
    jsonp_rendering (fun _ => (none : Option Unit)) ("/a".toList)
      ("callback=cb".toList) jsonExt ("data".toList) ⟨[], "fix".toList, []⟩ false
      (by decide)⟩

/-- C10: a resolver-produced file name for extension `json`, `js`, or
`html` always drives `serveResponse` into one of its four
response-sending branches; the trailing unrecognized-extension branch
(which sends nothing) is unreachable for such names. -/
theorem known_extension_always_served {α : Type} (tryParse : JStr → Option α)
    (path data : JStr) (s : Settings) (newResponse : Bool) (ext : JStr)
    (hext : ext = jsonExt ∨ ext = jsExt ∨ ext = htmlExt) :
    (serveResponse tryParse (getFileName path ext s) data newResponse).isSome
      = true := by
  have hdm := dotMatch_getFileName path ext s
  unfold serveResponse
  by_cases hcb : hasSub callbackPattern (getFileName path ext s) = true
  · rw [if_pos hcb]
    rfl
  · rw [if_neg hcb]
    rcases hext with h | h | h <;> subst h
    · rw [if_pos hdm]
      cases newResponse
      · cases tryParse data <;> rfl
      · rfl
    · by_cases hj : dotMatch jsonExt (getFileName path jsExt s) = true
      · rw [if_pos hj]
        cases newResponse
        · cases tryParse data <;> rfl
        · rfl
      · rw [if_neg hj, if_pos hdm]
        rfl
    · by_cases hj : dotMatch jsonExt (getFileName path htmlExt s) = true
      · rw [if_pos hj]
        cases newResponse
        · cases tryParse data <;> rfl
        · rfl
      · by_cases hjs : dotMatch jsExt (getFileName path htmlExt s) = true
        · rw [if_neg hj, if_pos hjs]
          rfl
        · rw [if_neg hj, if_neg hjs, if_pos hdm]
          rfl

/-- C10 witness: the `.json` name for `/a` is answered by some response. -/
theorem known_extension_always_served_witness :
    (jsonExt = jsonExt ∨ jsonExt = jsExt ∨ jsonExt = htmlExt) ∧
      (serveResponse (fun _ => (none : Option Unit))
          (getFileName ("/a".toList) jsonExt ⟨[], "fix".toList, []⟩)
          ("d".toList) false).isSome = true :=
  ⟨Or.inl rfl,
    known_extension_always_served (fun _ => (none : Option Unit)) ("/a".toList)
      ("d".toList) ⟨[], "fix".toList, []⟩ false jsonExt (Or.inl rfl)⟩

/-- C7 (code bug): EVERY override entry declared without a fixed response
body makes the fixture-resolution step throw a synchronous TypeError —
`getFileName(route, options, 'json')` passes the settings object as `ext`
and the string `'json'` as `options`, so destructuring yields `undefined`
and `undefined.reduce` throws.  The exception escapes `start` as a throw;
the start callback's error channel is never used, and even with the
arguments in the right order the missing-fixture error would be thrown
asynchronously inside the `fs.readFile` callback after `start` returned
(`RegOutcome` has no constructor reaching `callback(err)`). -/
theorem override_without_response_throws_sync (route : JStr) (options : Settings) :
    registerOverrideEntry route none options =
      .throwsSync
        ("TypeError: Cannot read properties of undefined (reading reduce)".toList) :=
  rfl

/-- C8 counterexample: starting with ports `[4567, 4567]` binds the first
port and skips the duplicate, but the overall completion callback is
never invoked — `parallelCompletes` is false because the duplicate's task
returned without calling its `async.parallel` callback. -/
theorem duplicate_port_never_completes_counterexample :
    startListening (fun _ => none) [4567, 4567] [] =
        ([⟨4567, true⟩], [.calledBack none, .skippedDuplicate]) ∧
      parallelCompletes (startListening (fun _ => none) [4567, 4567] []).2 = false := by
  constructor
  · rfl
  · rfl

/-- C8 (amended): a duplicate port is skipped with a warning and without
touching the registry, every non-duplicate port is started and
registered, but whenever a duplicate was skipped the overall start
completion callback is never invoked (the skipped task never signals
`async.parallel`). -/
theorem duplicate_port_skip_amended (bindErr : Nat → Option JStr) :
    (∀ (registry : List ServerRec) (port : Nat),
      ((registry.filter (fun r => r.active)).map (fun r => r.port)).contains port
          = true →
        runListenTask bindErr registry port = (registry, .skippedDuplicate)) ∧
      (∀ (registry : List ServerRec) (port : Nat),
        ((registry.filter (fun r => r.active)).map (fun r => r.port)).contains port
            = false →
          runListenTask bindErr registry port =
            (registry ++ [⟨port, true⟩], .calledBack (bindErr port))) ∧
      (∀ results : List TaskResult,
        TaskResult.skippedDuplicate ∈ results → parallelCompletes results = false) := by
  refine ⟨fun registry port h => ?_, fun registry port h => ?_, fun results hmem => ?_⟩
  · unfold runListenTask
    rw [if_pos h]
  · unfold runListenTask
    rw [if_neg (by rw [h]; exact Bool.false_ne_true)]
  · rw [Bool.eq_false_iff]
    intro hall
    rw [parallelCompletes, List.all_eq_true] at hall
    have := hall _ hmem
    simp at this

/-- C8 amended witness: on the registry holding an active 4567, the task
for 4567 skips; a result list containing a skip never completes. -/
theorem duplicate_port_skip_amended_witness :
    ((([⟨4567, true⟩] : List ServerRec).filter (fun r => r.active)).map
          (fun r => r.port)).contains 4567 = true ∧
      runListenTask (fun _ => none) [⟨4567, true⟩] 4567 =
        ([⟨4567, true⟩], .skippedDuplicate) ∧
      parallelCompletes [.calledBack none, .skippedDuplicate] = false :=
  ⟨by decide,
    (duplicate_port_skip_amended (fun _ => none)).1 [⟨4567, true⟩] 4567 (by decide),
    (duplicate_port_skip_amended (fun _ => none)).2.2
      [.calledBack none, .skippedDuplicate] (by decide)⟩

/-- C9: for a port not already active in the registry, the task appends
`{port, active := true}` synchronously (before the listen callback can
run), and the resulting registry is the same under any bind outcome — in
particular after a failed bind the registry still holds a record flagged
active for that port. -/
theorem registry_active_regardless_of_bind (bindErr bindErr' : Nat → Option JStr)
    (registry : List ServerRec) (port : Nat)
    (h : ((registry.filter (fun r => r.active)).map (fun r => r.port)).contains port
      = false) :
    (runListenTask bindErr registry port).1 = registry ++ [⟨port, true⟩] ∧
      (runListenTask bindErr registry port).1 =
        (runListenTask bindErr' registry port).1 ∧
      ServerRec.mk port true ∈ (runListenTask bindErr registry port).1 := by
  have hb : runListenTask bindErr registry port =
      (registry ++ [⟨port, true⟩], .calledBack (bindErr port)) := by
    unfold runListenTask
    rw [if_neg (by rw [h]; exact Bool.false_ne_true)]
  have hb' : runListenTask bindErr' registry port =
      (registry ++ [⟨port, true⟩], .calledBack (bindErr' port)) := by
    unfold runListenTask
    rw [if_neg (by rw [h]; exact Bool.false_ne_true)]
  refine ⟨by rw [hb], by rw [hb, hb'], ?_⟩
  rw [hb]
  exact List.mem_append_right registry (List.mem_singleton.mpr rfl)

/-- C9 witness: port 4567 whose bind fails with `EADDRINUSE` is still
recorded active. -/
theorem registry_active_regardless_of_bind_witness :
    ((([] : List ServerRec).filter (fun r => r.active)).map
          (fun r => r.port)).contains 4567 = false ∧
      ((runListenTask (fun _ => some ("EADDRINUSE".toList)) [] 4567).1 =
          [ServerRec.mk 4567 true] ∧
        (runListenTask (fun _ => some ("EADDRINUSE".toList)) [] 4567).1 =
          (runListenTask (fun _ => none) [] 4567).1 ∧
        ServerRec.mk 4567 true ∈
          (runListenTask (fun _ => some ("EADDRINUSE".toList)) [] 4567).1) :=
  ⟨by decide,
    registry_active_regardless_of_bind (fun _ => some ("EADDRINUSE".toList))
      (fun _ => none) [] 4567 (by decide)⟩
end Highwind
